import Mathlib

set_option maxHeartbeats 1000000

/-!
Shallow embedding of `hubitat-backup.py`.

The script downloads Hubitat configuration backups and prunes old local
copies.  We embed:

* `get_date` — year disambiguation of the hub's year-less `mm/dd HH:MM`
  timestamps (Python `datetime.strptime` validation is modelled by
  `strptime`, Python `datetime` comparison by the lexicographic `dtLt`);
* `download_available_backups` — the sync loop over the remote backup
  list, with the network modelled as a download oracle
  `String → Except String (List Nat)` and the destination directory as a
  list of named entries (`FS`);
* `clean_old_backups` — the retention prune, with per-entry `stat` /
  `unlink` syscall failures modelled by boolean flags on each entry;
* the `__main__` block (`mainRun`) — login, sync inside `try/except`,
  then an unconditional prune.
-/

structure DateTime where
  year : Nat
  month : Nat
  day : Nat
  hour : Nat
  minute : Nat
  sec : Nat
  usec : Nat
deriving DecidableEq

/-- A lexed year-less date string `mm/dd HH:MM` as reported by the hub. -/
structure PDate where
  month : Nat
  day : Nat
  hour : Nat
  minute : Nat
deriving DecidableEq

/-- Gregorian leap-year rule, as used by Python's `datetime`. -/
def isLeap (y : Nat) : Bool :=
  decide ((y % 4 = 0 ∧ y % 100 ≠ 0) ∨ y % 400 = 0)

def daysInMonth (y m : Nat) : Nat :=
  if m = 2 then (if isLeap y then 29 else 28)
  else if m = 4 ∨ m = 6 ∨ m = 9 ∨ m = 11 then 30
  else 31

/-- `datetime.strptime(f"{year} {p}", "%Y %m/%d %H:%M")`: validates the
field ranges (including the year-dependent day-of-month bound and Python's
`MINYEAR`/`MAXYEAR` limits) and yields a `DateTime` with seconds and
microseconds zero, or fails. -/
def strptime (year : Nat) (p : PDate) : Option DateTime :=
  if 1 ≤ year ∧ year ≤ 9999 ∧ 1 ≤ p.month ∧ p.month ≤ 12 ∧ 1 ≤ p.day ∧
      p.day ≤ daysInMonth year p.month ∧ p.hour ≤ 23 ∧ p.minute ≤ 59 then
    some ⟨year, p.month, p.day, p.hour, p.minute, 0, 0⟩
  else
    none

/-- Python `datetime` `<`: lexicographic over all components. -/
def dtLt (a b : DateTime) : Bool :=
  if a.year ≠ b.year then decide (a.year < b.year)
  else if a.month ≠ b.month then decide (a.month < b.month)
  else if a.day ≠ b.day then decide (a.day < b.day)
  else if a.hour ≠ b.hour then decide (a.hour < b.hour)
  else if a.minute ≠ b.minute then decide (a.minute < b.minute)
  else if a.sec ≠ b.sec then decide (a.sec < b.sec)
  else decide (a.usec < b.usec)

/-- `get_date`: attach the current year, then the previous year (both
constructed eagerly — either failure aborts), and return the current-year
candidate exactly when it is strictly before `now`. -/
def get_date (now : DateTime) (p : PDate) : Option DateTime :=
  match strptime now.year p with
  | none => none
  | some date1 =>
    match strptime (now.year - 1) p with
    | none => none
    | some date2 => some (if dtLt date1 now then date1 else date2)

/-- `_days_before_year` of CPython's `datetime` module. -/
def daysBeforeYear (y : Nat) : Nat :=
  365 * (y - 1) + (y - 1) / 4 - (y - 1) / 100 + (y - 1) / 400

def daysBeforeMonth (y m : Nat) : Nat :=
  (List.range (m - 1)).foldl (fun acc j => acc + daysInMonth y (j + 1)) 0

def toOrdinal (d : DateTime) : Nat :=
  daysBeforeYear d.year + daysBeforeMonth d.year d.month + d.day

/-- `datetime.timestamp()` in whole seconds; `719163` is the proleptic
Gregorian ordinal of 1970-01-01. -/
def dtTimestamp (d : DateTime) : Int :=
  ((toOrdinal d : Int) - 719163) * 86400 + d.hour * 3600 + d.minute * 60 + d.sec

/-- Python `str.endswith`. -/
def endswith (s suffix : String) : Bool :=
  suffix.data.isSuffixOf s.data

inductive EntryKind where
  | file
  | directory
  | symlink (targetExists : Bool)
deriving DecidableEq

/-- One direct entry of the destination directory.  `statFails` and
`unlinkFails` model an `OSError` raised by the corresponding syscall when
the prune phase reaches this entry. -/
structure Entry where
  name : String
  kind : EntryKind
  mtime : Int
  content : List Nat
  statFails : Bool
  unlinkFails : Bool
deriving DecidableEq

/-- The destination directory: whether it exists, and its entries. -/
structure FS where
  destExists : Bool
  entries : List Entry
deriving DecidableEq

/-- One element of the hub's `/api/backups` response. -/
structure Backup where
  name : String
  createTime : PDate
deriving DecidableEq

/-- `os.path.exists` on an entry of the given kind: true for files and
directories, and for a symbolic link exactly when its target exists. -/
def pathExistsKind : EntryKind → Bool
  | .file => true
  | .directory => true
  | .symlink b => b

/-- `os.path.exists(os.path.join(backup_path, n))`. -/
def existsName : List Entry → String → Bool
  | [], _ => false
  | e :: r, n => (decide (e.name = n) && pathExistsKind e.kind) || existsName r n

/-- `DirEntry.is_file(follow_symlinks=False)`: a regular file only. -/
def isFile (e : Entry) : Bool :=
  match e.kind with
  | .file => true
  | _ => false

/-- Effect of `io.open(target, "wb")` + `write` on an entry that already
bears the target name: writing through a symbolic link makes its target
exist; otherwise the regular file is truncated and rewritten. -/
def overwriteEntry (e : Entry) (c : List Nat) (w : Int) : Entry :=
  match e.kind with
  | .symlink _ => { e with kind := .symlink true, mtime := w, content := c }
  | _ => { e with kind := .file, mtime := w, content := c }

def writeEntries : List Entry → String → List Nat → Int → List Entry
  | [], n, c, w => [⟨n, .file, w, c, false, false⟩]
  | e :: r, n, c, w =>
    if e.name = n then overwriteEntry e c w :: r
    else e :: writeEntries r n c w

/-- State change of a *successful* write of `content` to `destination/n`;
the fresh file's modification time is the wall-clock write time `w` until
`os.utime` changes it.  (Whether `io.open`/`file.write` succeed at all is
decided by the write oracle of `syncLoop`.) -/
def writeFileFS (fs : FS) (n : String) (c : List Nat) (w : Int) : FS :=
  { fs with entries := writeEntries fs.entries n c w }

def setMtimeEntries : List Entry → String → Int → List Entry
  | [], _, _ => []
  | e :: r, n, t =>
    if e.name = n then { e with mtime := t } :: r
    else e :: setMtimeEntries r n t

/-- `os.utime(target, (date, date))`. -/
def setMtimeFS (fs : FS) (n : String) (t : Int) : FS :=
  { fs with entries := setMtimeEntries fs.entries n t }

/-- The `ValueError` raised by `strptime` on a bad date string. -/
def dateFormatMsg : String := "time data does not match format"

/-- The message of the exception thrown on an empty `backups` list. -/
def emptyBackupsMsg (ip : String) : String :=
  "No backups found. Make sure backups are enabled on http://" ++ ip ++ "/hub/backup"

def statFailMsg : String := "stat failed"

def unlinkFailMsg : String := "unlink failed"

/-- The `for backup in backups:` loop of `download_available_backups`.
`dl` is the download oracle (`hub.download` — `Except.error` models the
exception thrown on a failed request); `wr` is the write oracle for
`io.open(target, "wb")`/`file.write(content)` — `Except.error` models the
`OSError` raised before the target is persisted (e.g. the open failing),
which propagates out of the loop, while on `Except.ok` the write's state
change is `writeFileFS`.  `now` is the value of `datetime.now()` inside
`get_date`, `nowTs` the wall-clock write time.  The returned
`Option String` is the exception escaping the loop, with the directory
state at that moment. -/
def syncLoop (dl : String → Except String (List Nat))
    (wr : String → List Nat → Except String Unit) (now : DateTime)
    (nowTs : Int) : List Backup → FS → FS × Option String
  | [], fs => (fs, none)
  | b :: rest, fs =>
    if endswith b.name ".lzf" = false then
      syncLoop dl wr now nowTs rest fs
    else if existsName fs.entries b.name = true then
      syncLoop dl wr now nowTs rest fs
    else
      match dl b.name with
      | .error e => (fs, some e)
      | .ok content =>
        match wr b.name content with
        | .error e => (fs, some e)
        | .ok _ =>
          let fs1 := writeFileFS fs b.name content nowTs
          match get_date now b.createTime with
          | none => (fs1, some dateFormatMsg)
          | some d =>
            syncLoop dl wr now nowTs rest (setMtimeFS fs1 b.name (dtTimestamp d))

/-- `download_available_backups`: `os.makedirs(backup_path, exist_ok=True)`,
then the `/api/backups` request (`listResult` — its `Except.error` models
a failed `hub.get`), the empty-list check, then the download loop. -/
def download_available_backups (dl : String → Except String (List Nat))
    (wr : String → List Nat → Except String Unit) (now : DateTime)
    (nowTs : Int) (ip : String) (fs : FS)
    (listResult : Except String (List Backup)) : FS × Option String :=
  let fs1 : FS := { fs with destExists := true }
  match listResult with
  | .error e => (fs1, some e)
  | .ok backups =>
    if backups.isEmpty then (fs1, some (emptyBackupsMsg ip))
    else syncLoop dl wr now nowTs backups fs1

/-- `clean_old_backups`: scan the directory entries in order; skip
non-regular-files and names without the `.lzf` suffix; `os.stat` the rest
(an entry with `statFails` raises there, aborting the scan); keep entries
younger than `max_age_days` (Python `timedelta.days` floors, hence
`Int.fdiv`); `os.unlink` the old ones (an entry with `unlinkFails` raises
there, aborting the scan).  Returns the surviving entries and the
escaping exception, if any. -/
def clean_old_backups (now maxAge : Int) : List Entry → List Entry × Option String
  | [] => ([], none)
  | e :: rest =>
    if isFile e = false then
      let p := clean_old_backups now maxAge rest
      (e :: p.1, p.2)
    else if endswith e.name ".lzf" = false then
      let p := clean_old_backups now maxAge rest
      (e :: p.1, p.2)
    else if e.statFails = true then
      (e :: rest, some statFailMsg)
    else if (now - e.mtime).fdiv 86400 < maxAge then
      let p := clean_old_backups now maxAge rest
      (e :: p.1, p.2)
    else if e.unlinkFails = true then
      (e :: rest, some unlinkFailMsg)
    else
      clean_old_backups now maxAge rest

/-- The deletion criterion of `clean_old_backups`, as a predicate on one
entry: a regular file, with the `.lzf` suffix, whose floored age in days
is at least `maxAge`. -/
def pruneDeletes (now maxAge : Int) (e : Entry) : Bool :=
  isFile e && endswith e.name ".lzf" && !decide ((now - e.mtime).fdiv 86400 < maxAge)

/-- The `__main__` block: `hub.login()` (`loginErr` models the exception
it may raise) and `download_available_backups` run inside `try/except`
— the caught exception is printed, never re-raised — and
`clean_old_backups` runs unconditionally afterwards.  Returns the final
directory state, the diagnostic printed by the `except` branch, and the
exception escaping the prune phase. -/
def mainRun (loginErr : Option String) (dl : String → Except String (List Nat))
    (wr : String → List Nat → Except String Unit) (now : DateTime)
    (nowTs : Int) (ip : String) (listResult : Except String (List Backup))
    (fs : FS) (now2 maxAge : Int) : FS × Option String × Option String :=
  let r :=
    match loginErr with
    | some e => (fs, some e)
    | none => download_available_backups dl wr now nowTs ip fs listResult
  let p := clean_old_backups now2 maxAge r.1.entries
  (⟨r.1.destExists, p.1⟩, r.2, p.2)

example : endswith "foo.lzf" ".lzf" = true := by decide

example : endswith "foo.zip" ".lzf" = false := by decide

example : get_date ⟨2024, 3, 15, 10, 0, 0, 0⟩ ⟨3, 1, 9, 0⟩ =
    some ⟨2024, 3, 1, 9, 0, 0, 0⟩ := by decide

example : get_date ⟨2024, 3, 15, 10, 0, 0, 0⟩ ⟨12, 25, 9, 0⟩ =
    some ⟨2023, 12, 25, 9, 0, 0, 0⟩ := by decide

example : get_date ⟨2024, 3, 15, 10, 0, 0, 0⟩ ⟨2, 29, 9, 0⟩ = none := by decide

/-! ## Helper lemmas -/

theorem dtLt_irrefl (a : DateTime) : dtLt a a = false := by
  simp [dtLt]

theorem isLeap_pred_false (y : Nat) (hy : 1 ≤ y) (h : isLeap y = true) :
    isLeap (y - 1) = false := by
  simp only [isLeap, decide_eq_true_eq] at h
  simp only [isLeap, decide_eq_false_iff_not]
  omega

theorem existsName_of_mem (l : List Entry) (e : Entry) (n : String)
    (hmem : e ∈ l) (hname : e.name = n) (hkind : pathExistsKind e.kind = true) :
    existsName l n = true := by
  induction l with
  | nil => cases hmem
  | cons a r ih =>
    cases hmem with
    | head => simp [existsName, hname, hkind]
    | tail _ hm => simp [existsName, ih hm]

theorem overwriteEntry_name (e : Entry) (c : List Nat) (w : Int) :
    (overwriteEntry e c w).name = e.name := by
  cases h : e.kind <;> simp [overwriteEntry, h]

theorem overwriteEntry_exists (e : Entry) (c : List Nat) (w : Int) :
    pathExistsKind (overwriteEntry e c w).kind = true := by
  cases h : e.kind <;> simp [overwriteEntry, h, pathExistsKind]

theorem existsName_writeEntries_self (l : List Entry) (n : String) (c : List Nat)
    (w : Int) : existsName (writeEntries l n c w) n = true := by
  induction l with
  | nil => simp [writeEntries, existsName, pathExistsKind]
  | cons a r ih =>
    by_cases h : a.name = n
    · simp [writeEntries, h, existsName, overwriteEntry_name, overwriteEntry_exists]
    · simp [writeEntries, h, existsName, ih]

theorem existsName_writeEntries_mono (l : List Entry) (m n : String) (c : List Nat)
    (w : Int) (h : existsName l m = true) :
    existsName (writeEntries l n c w) m = true := by
  induction l with
  | nil => simp [existsName] at h
  | cons a r ih =>
    by_cases han : a.name = n
    · simp only [writeEntries, if_pos han]
      simp only [existsName, Bool.or_eq_true, Bool.and_eq_true, decide_eq_true_eq,
        overwriteEntry_name, overwriteEntry_exists] at h ⊢
      rcases h with ⟨h1, _⟩ | hr
      · exact Or.inl ⟨h1, trivial⟩
      · exact Or.inr hr
    · simp only [writeEntries, if_neg han]
      simp only [existsName, Bool.or_eq_true] at h ⊢
      rcases h with hh | hr
      · exact Or.inl hh
      · exact Or.inr (ih hr)

theorem existsName_setMtimeEntries (l : List Entry) (n : String) (t : Int)
    (m : String) : existsName (setMtimeEntries l n t) m = existsName l m := by
  induction l with
  | nil => rfl
  | cons a r ih =>
    by_cases han : a.name = n
    · simp [setMtimeEntries, if_pos han, existsName]
    · simp [setMtimeEntries, if_neg han, existsName, ih]

theorem syncLoop_destExists (dl : String → Except String (List Nat))
    (wr : String → List Nat → Except String Unit) (now : DateTime)
    (nowTs : Int) (bs : List Backup) (fs : FS) :
    (syncLoop dl wr now nowTs bs fs).1.destExists = fs.destExists := by
  induction bs generalizing fs with
  | nil => rfl
  | cons b rest ih =>
    by_cases h1 : endswith b.name ".lzf" = false
    · simp only [syncLoop, if_pos h1]
      exact ih fs
    · by_cases h2 : existsName fs.entries b.name = true
      · simp only [syncLoop, if_neg h1, if_pos h2]
        exact ih fs
      · cases hdl : dl b.name with
        | error e => simp only [syncLoop, if_neg h1, if_neg h2, hdl]
        | ok c =>
          cases hwr : wr b.name c with
          | error ew => simp only [syncLoop, if_neg h1, if_neg h2, hdl, hwr]
          | ok u =>
            cases hgd : get_date now b.createTime with
            | none =>
              simp only [syncLoop, if_neg h1, if_neg h2, hdl, hwr, hgd]
              rfl
            | some d =>
              simp only [syncLoop, if_neg h1, if_neg h2, hdl, hwr, hgd]
              exact ih _

theorem syncLoop_exists_mono (dl : String → Except String (List Nat))
    (wr : String → List Nat → Except String Unit) (now : DateTime)
    (nowTs : Int) (bs : List Backup) (fs : FS) (n : String)
    (h : existsName fs.entries n = true) :
    existsName (syncLoop dl wr now nowTs bs fs).1.entries n = true := by
  induction bs generalizing fs with
  | nil => exact h
  | cons b rest ih =>
    by_cases h1 : endswith b.name ".lzf" = false
    · simp only [syncLoop, if_pos h1]
      exact ih fs h
    · by_cases h2 : existsName fs.entries b.name = true
      · simp only [syncLoop, if_neg h1, if_pos h2]
        exact ih fs h
      · cases hdl : dl b.name with
        | error e =>
          simp only [syncLoop, if_neg h1, if_neg h2, hdl]
          exact h
        | ok c =>
          cases hwr : wr b.name c with
          | error ew =>
            simp only [syncLoop, if_neg h1, if_neg h2, hdl, hwr]
            exact h
          | ok u =>
            cases hgd : get_date now b.createTime with
            | none =>
              simp only [syncLoop, if_neg h1, if_neg h2, hdl, hwr, hgd]
              exact existsName_writeEntries_mono fs.entries n b.name c nowTs h
            | some d =>
              simp only [syncLoop, if_neg h1, if_neg h2, hdl, hwr, hgd]
              refine ih _ ?_
              show existsName (setMtimeEntries (writeEntries fs.entries b.name c
                nowTs) b.name (dtTimestamp d)) n = true
              rw [existsName_setMtimeEntries]
              exact existsName_writeEntries_mono fs.entries n b.name c nowTs h

theorem syncLoop_success_exists (dl : String → Except String (List Nat))
    (wr : String → List Nat → Except String Unit) (now : DateTime)
    (nowTs : Int) (bs : List Backup) (fs fs' : FS)
    (h : syncLoop dl wr now nowTs bs fs = (fs', none)) :
    ∀ b ∈ bs, endswith b.name ".lzf" = true → existsName fs'.entries b.name = true := by
  induction bs generalizing fs with
  | nil =>
    intro b hb
    cases hb
  | cons a rest ih =>
    intro b hb hlzf
    by_cases h1 : endswith a.name ".lzf" = false
    · simp only [syncLoop, if_pos h1] at h
      cases hb with
      | head => exact absurd hlzf (by simp [h1])
      | tail _ hm => exact ih fs h b hm hlzf
    · by_cases h2 : existsName fs.entries a.name = true
      · simp only [syncLoop, if_neg h1, if_pos h2] at h
        cases hb with
        | head =>
          have := syncLoop_exists_mono dl wr now nowTs rest fs a.name h2
          rw [h] at this
          exact this
        | tail _ hm => exact ih fs h b hm hlzf
      · cases hdl : dl a.name with
        | error e =>
          simp only [syncLoop, if_neg h1, if_neg h2, hdl] at h
          simp at h
        | ok c =>
          cases hwr : wr a.name c with
          | error ew =>
            simp only [syncLoop, if_neg h1, if_neg h2, hdl, hwr] at h
            simp at h
          | ok u =>
            cases hgd : get_date now a.createTime with
            | none =>
              simp only [syncLoop, if_neg h1, if_neg h2, hdl, hwr, hgd] at h
              simp at h
            | some d =>
              simp only [syncLoop, if_neg h1, if_neg h2, hdl, hwr, hgd] at h
              cases hb with
              | head =>
                have hw : existsName (setMtimeFS (writeFileFS fs a.name c nowTs)
                    a.name (dtTimestamp d)).entries a.name = true := by
                  show existsName (setMtimeEntries (writeEntries fs.entries a.name c
                    nowTs) a.name (dtTimestamp d)) a.name = true
                  rw [existsName_setMtimeEntries]
                  exact existsName_writeEntries_self fs.entries a.name c nowTs
                have := syncLoop_exists_mono dl wr now nowTs rest
                  (setMtimeFS (writeFileFS fs a.name c nowTs) a.name (dtTimestamp d))
                  a.name hw
                rw [h] at this
                exact this
              | tail _ hm => exact ih _ h b hm hlzf

theorem syncLoop_all_exist_noop (dl : String → Except String (List Nat))
    (wr : String → List Nat → Except String Unit) (now : DateTime)
    (nowTs : Int) (bs : List Backup) (fs : FS)
    (h : ∀ b ∈ bs, endswith b.name ".lzf" = true → existsName fs.entries b.name = true) :
    syncLoop dl wr now nowTs bs fs = (fs, none) := by
  induction bs with
  | nil => rfl
  | cons a rest ih =>
    by_cases h1 : endswith a.name ".lzf" = false
    · simp only [syncLoop, if_pos h1]
      exact ih (fun b hb => h b (List.mem_cons_of_mem _ hb))
    · have hex : existsName fs.entries a.name = true := by
        refine h a (List.mem_cons_self _ _) ?_
        revert h1
        cases endswith a.name ".lzf" <;> simp
      simp only [syncLoop, if_neg h1, if_pos hex]
      exact ih (fun b hb => h b (List.mem_cons_of_mem _ hb))

theorem syncLoop_append (dl : String → Except String (List Nat))
    (wr : String → List Nat → Except String Unit) (now : DateTime)
    (nowTs : Int) (pre tail : List Backup) (fs fs1 : FS)
    (h : syncLoop dl wr now nowTs pre fs = (fs1, none)) :
    syncLoop dl wr now nowTs (pre ++ tail) fs = syncLoop dl wr now nowTs tail fs1 := by
  induction pre generalizing fs with
  | nil =>
    injection h with ha hb
    rw [List.nil_append, ha]
  | cons a r ih =>
    rw [List.cons_append]
    by_cases h1 : endswith a.name ".lzf" = false
    · simp only [syncLoop, if_pos h1] at h ⊢
      exact ih fs h
    · by_cases h2 : existsName fs.entries a.name = true
      · simp only [syncLoop, if_neg h1, if_pos h2] at h ⊢
        exact ih fs h
      · cases hdl : dl a.name with
        | error e =>
          simp only [syncLoop, if_neg h1, if_neg h2, hdl] at h
          simp at h
        | ok c =>
          cases hwr : wr a.name c with
          | error ew =>
            simp only [syncLoop, if_neg h1, if_neg h2, hdl, hwr] at h
            simp at h
          | ok u =>
            cases hgd : get_date now a.createTime with
            | none =>
              simp only [syncLoop, if_neg h1, if_neg h2, hdl, hwr, hgd] at h
              simp at h
            | some d =>
              simp only [syncLoop, if_neg h1, if_neg h2, hdl, hwr, hgd] at h ⊢
              exact ih _ h

theorem clean_old_backups_append (now maxAge : Int) (pre tail pre' : List Entry)
    (h : clean_old_backups now maxAge pre = (pre', none)) :
    clean_old_backups now maxAge (pre ++ tail) =
      (pre' ++ (clean_old_backups now maxAge tail).1,
        (clean_old_backups now maxAge tail).2) := by
  induction pre generalizing pre' with
  | nil =>
    injection h with ha hb
    rw [List.nil_append, ← ha, List.nil_append]
  | cons e r ih =>
    rw [List.cons_append]
    by_cases h1 : isFile e = false
    · simp only [clean_old_backups, if_pos h1] at h ⊢
      injection h with ha hb
      have ihh := ih (clean_old_backups now maxAge r).1 (by rw [← hb])
      rw [ihh, ← ha]
      simp
    · by_cases h2 : endswith e.name ".lzf" = false
      · simp only [clean_old_backups, if_neg h1, if_pos h2] at h ⊢
        injection h with ha hb
        have ihh := ih (clean_old_backups now maxAge r).1 (by rw [← hb])
        rw [ihh, ← ha]
        simp
      · by_cases h3 : e.statFails = true
        · simp only [clean_old_backups, if_neg h1, if_neg h2, if_pos h3] at h
          simp at h
        · by_cases h4 : (now - e.mtime).fdiv 86400 < maxAge
          · simp only [clean_old_backups, if_neg h1, if_neg h2, if_neg h3,
              if_pos h4] at h ⊢
            injection h with ha hb
            have ihh := ih (clean_old_backups now maxAge r).1 (by rw [← hb])
            rw [ihh, ← ha]
            simp
          · by_cases h5 : e.unlinkFails = true
            · simp only [clean_old_backups, if_neg h1, if_neg h2, if_neg h3,
                if_neg h4, if_pos h5] at h
              simp at h
            · simp only [clean_old_backups, if_neg h1, if_neg h2, if_neg h3,
                if_neg h4, if_neg h5] at h ⊢
              exact ih pre' h

theorem strptime_some_valid (y : Nat) (p : PDate) (d : DateTime)
    (h : strptime y p = some d) :
    1 ≤ y ∧ y ≤ 9999 ∧ p.day ≤ daysInMonth y p.month := by
  unfold strptime at h
  split at h
  case isTrue hc => exact ⟨hc.1, hc.2.1, hc.2.2.2.2.2.1⟩
  case isFalse => cases h

theorem strptime_none_of_day_gt (y : Nat) (p : PDate)
    (h : ¬ p.day ≤ daysInMonth y p.month) : strptime y p = none := by
  unfold strptime
  rw [if_neg]
  intro hc
  exact h hc.2.2.2.2.2.1

/-! ## Claim theorems -/

/-- C1: for a partial date that `strptime` accepts in both the current and
the previous calendar year of `now`, `get_date` returns the current-year
candidate exactly when it is strictly earlier than `now`, and otherwise
the previous-year candidate; in particular a current-year candidate equal
to `now` yields the previous-year candidate. -/
theorem get_date_resolves_year (now : DateTime) (p : PDate) (d1 d2 : DateTime)
    (h1 : strptime now.year p = some d1)
    (h2 : strptime (now.year - 1) p = some d2) :
    (dtLt d1 now = true → get_date now p = some d1) ∧
    (dtLt d1 now = false → get_date now p = some d2) ∧
    (d1 = now → get_date now p = some d2) := by
  refine ⟨fun h => ?_, fun h => ?_, fun h => ?_⟩
  · simp [get_date, h1, h2, h]
  · simp [get_date, h1, h2, h]
  · subst h
    simp [get_date, h1, h2, dtLt_irrefl]

theorem get_date_resolves_year_witness :
    dtLt ⟨2024, 3, 1, 9, 0, 0, 0⟩ ⟨2024, 3, 15, 10, 0, 0, 0⟩ = true ∧
    get_date ⟨2024, 3, 15, 10, 0, 0, 0⟩ ⟨3, 1, 9, 0⟩ =
      some ⟨2024, 3, 1, 9, 0, 0, 0⟩ :=
  ⟨by decide,
    (get_date_resolves_year ⟨2024, 3, 15, 10, 0, 0, 0⟩ ⟨3, 1, 9, 0⟩
      ⟨2024, 3, 1, 9, 0, 0, 0⟩ ⟨2023, 3, 1, 9, 0, 0, 0⟩ (by decide)
      (by decide)).1 (by decide)⟩

/-- C9: a partial date denoting February 29 always makes `get_date` fail:
both year candidates are constructed eagerly, and the current and previous
calendar years are never both leap years, so one of the two `strptime`
calls always fails — even when the current-year candidate would be a valid
past date. -/
theorem get_date_feb29_fails (now : DateTime) (hh mm : Nat) :
    get_date now ⟨2, 29, hh, mm⟩ = none := by
  cases h1 : strptime now.year ⟨2, 29, hh, mm⟩ with
  | none => simp [get_date, h1]
  | some d1 =>
    obtain ⟨hy1, _, hday⟩ := strptime_some_valid now.year _ d1 h1
    have hleap : isLeap now.year = true := by
      by_contra hnl
      have hf : isLeap now.year = false := by
        revert hnl
        cases isLeap now.year <;> simp
      rw [show (⟨2, 29, hh, mm⟩ : PDate).month = 2 from rfl,
        show (⟨2, 29, hh, mm⟩ : PDate).day = 29 from rfl] at hday
      simp [daysInMonth, hf] at hday
    have h2 : strptime (now.year - 1) ⟨2, 29, hh, mm⟩ = none := by
      apply strptime_none_of_day_gt
      rw [show (⟨2, 29, hh, mm⟩ : PDate).month = 2 from rfl,
        show (⟨2, 29, hh, mm⟩ : PDate).day = 29 from rfl]
      simp [daysInMonth, isLeap_pred_false now.year hy1 hleap]
    simp [get_date, h1, h2]

/-- C5: an empty remote backup list makes `download_available_backups`
fail with the dedicated no-backups diagnostic, and the only filesystem
effect is the creation of the destination directory itself — the entries
are untouched. -/
theorem sync_empty_list (dl : String → Except String (List Nat))
    (wr : String → List Nat → Except String Unit) (now : DateTime)
    (nowTs : Int) (ip : String) (fs : FS) :
    download_available_backups dl wr now nowTs ip fs (Except.ok []) =
      ({ fs with destExists := true }, some (emptyBackupsMsg ip)) := rfl

/-- C3: the `__main__` block catches any error raised by `hub.login` or
`download_available_backups`, reports it, and still runs
`clean_old_backups` on the directory state left by the sync phase; the
prune phase also runs when sync succeeds. -/
theorem main_always_prunes (dl : String → Except String (List Nat))
    (wr : String → List Nat → Except String Unit) (now : DateTime)
    (nowTs : Int) (ip : String) (listResult : Except String (List Backup))
    (fs : FS) (now2 maxAge : Int) :
    (∀ e, mainRun (some e) dl wr now nowTs ip listResult fs now2 maxAge =
      (⟨fs.destExists, (clean_old_backups now2 maxAge fs.entries).1⟩, some e,
        (clean_old_backups now2 maxAge fs.entries).2)) ∧
    (∀ fs1 e,
      download_available_backups dl wr now nowTs ip fs listResult = (fs1, some e) →
      mainRun none dl wr now nowTs ip listResult fs now2 maxAge =
        (⟨fs1.destExists, (clean_old_backups now2 maxAge fs1.entries).1⟩, some e,
          (clean_old_backups now2 maxAge fs1.entries).2)) ∧
    (∀ fs1,
      download_available_backups dl wr now nowTs ip fs listResult = (fs1, none) →
      mainRun none dl wr now nowTs ip listResult fs now2 maxAge =
        (⟨fs1.destExists, (clean_old_backups now2 maxAge fs1.entries).1⟩, none,
          (clean_old_backups now2 maxAge fs1.entries).2)) := by
  refine ⟨fun e => rfl, fun fs1 e h => ?_, fun fs1 h => ?_⟩ <;>
    simp [mainRun, h]

theorem main_always_prunes_witness :
    mainRun (some "login failed") (fun _ => Except.error "net")
        (fun _ _ => Except.ok ()) ⟨2024, 3, 15, 10, 0, 0, 0⟩ 0 "hub"
        (Except.ok []) ⟨false, []⟩ 0 90 =
      (⟨false, []⟩, some "login failed", none) ∧
    download_available_backups (fun _ => Except.error "net")
        (fun _ _ => Except.ok ()) ⟨2024, 3, 15, 10, 0, 0, 0⟩ 0 "hub" ⟨false, []⟩
        (Except.ok []) =
      (⟨true, []⟩, some (emptyBackupsMsg "hub")) ∧
    mainRun none (fun _ => Except.error "net") (fun _ _ => Except.ok ())
        ⟨2024, 3, 15, 10, 0, 0, 0⟩ 0 "hub" (Except.ok []) ⟨false, []⟩ 0 90 =
      (⟨true, []⟩, some (emptyBackupsMsg "hub"), none) ∧
    download_available_backups (fun _ => Except.error "net")
        (fun _ _ => Except.ok ()) ⟨2024, 3, 15, 10, 0, 0, 0⟩ 0 "hub" ⟨false, []⟩
        (Except.ok [⟨"skip.txt", ⟨3, 1, 9, 0⟩⟩]) =
      (⟨true, []⟩, none) ∧
    mainRun none (fun _ => Except.error "net") (fun _ _ => Except.ok ())
        ⟨2024, 3, 15, 10, 0, 0, 0⟩ 0 "hub"
        (Except.ok [⟨"skip.txt", ⟨3, 1, 9, 0⟩⟩]) ⟨false, []⟩ 0 90 =
      (⟨true, []⟩, none, none) := by
  refine ⟨?_, rfl, ?_, rfl, ?_⟩
  · exact (main_always_prunes (fun _ => Except.error "net")
      (fun _ _ => Except.ok ()) ⟨2024, 3, 15, 10, 0, 0, 0⟩ 0 "hub" (Except.ok [])
      ⟨false, []⟩ 0 90).1 "login failed"
  · exact (main_always_prunes (fun _ => Except.error "net")
      (fun _ _ => Except.ok ()) ⟨2024, 3, 15, 10, 0, 0, 0⟩ 0 "hub" (Except.ok [])
      ⟨false, []⟩ 0 90).2.1 ⟨true, []⟩ (emptyBackupsMsg "hub") rfl
  · exact (main_always_prunes (fun _ => Except.error "net")
      (fun _ _ => Except.ok ()) ⟨2024, 3, 15, 10, 0, 0, 0⟩ 0 "hub"
      (Except.ok [⟨"skip.txt", ⟨3, 1, 9, 0⟩⟩]) ⟨false, []⟩ 0 90).2.2
      ⟨true, []⟩ rfl

/-- C10: the already-present skip test of the sync loop is `os.path.exists`,
not a regular-file test: any entry bearing the backup's name — a file, a
directory, or a symbolic link whose target exists — makes the loop skip
the download for that backup without raising. -/
theorem sync_skip_existing_any_kind (dl : String → Except String (List Nat))
    (wr : String → List Nat → Except String Unit) (now : DateTime)
    (nowTs : Int) (b : Backup) (rest : List Backup) (fs : FS)
    (e : Entry) (hmem : e ∈ fs.entries) (hname : e.name = b.name)
    (hkind : pathExistsKind e.kind = true) :
    syncLoop dl wr now nowTs (b :: rest) fs = syncLoop dl wr now nowTs rest fs := by
  have hex := existsName_of_mem fs.entries e b.name hmem hname hkind
  by_cases hlzf : endswith b.name ".lzf" = false
  · simp only [syncLoop, if_pos hlzf]
  · simp only [syncLoop, if_neg hlzf, if_pos hex]

theorem sync_skip_existing_any_kind_witness :
    (⟨"a.lzf", EntryKind.directory, 0, [], false, false⟩ : Entry) ∈
      [(⟨"a.lzf", EntryKind.directory, 0, [], false, false⟩ : Entry)] ∧
    pathExistsKind EntryKind.directory = true ∧
    syncLoop (fun _ => Except.error "never called")
        (fun _ _ => Except.error "never called") ⟨2024, 3, 15, 10, 0, 0, 0⟩ 0
        [⟨"a.lzf", ⟨3, 1, 9, 0⟩⟩]
        ⟨true, [⟨"a.lzf", EntryKind.directory, 0, [], false, false⟩]⟩ =
      syncLoop (fun _ => Except.error "never called")
        (fun _ _ => Except.error "never called") ⟨2024, 3, 15, 10, 0, 0, 0⟩ 0
        [] ⟨true, [⟨"a.lzf", EntryKind.directory, 0, [], false, false⟩]⟩ :=
  ⟨List.mem_singleton.mpr rfl, rfl,
    sync_skip_existing_any_kind (fun _ => Except.error "never called")
      (fun _ _ => Except.error "never called")
      ⟨2024, 3, 15, 10, 0, 0, 0⟩ 0 ⟨"a.lzf", ⟨3, 1, 9, 0⟩⟩ []
      ⟨true, [⟨"a.lzf", EntryKind.directory, 0, [], false, false⟩]⟩
      ⟨"a.lzf", EntryKind.directory, 0, [], false, false⟩
      (List.mem_singleton.mpr rfl) rfl rfl⟩

/-- C7: the sync loop downloads a backup only when its name carries the
`.lzf` suffix and no entry of that name exists: a descriptor with any
other suffix is skipped without error or download, while a `.lzf`
descriptor absent locally is downloaded and written. -/
theorem sync_extension_filter (dl : String → Except String (List Nat))
    (wr : String → List Nat → Except String Unit) (now : DateTime)
    (nowTs : Int) (b : Backup) (rest : List Backup) (fs : FS) :
    (endswith b.name ".lzf" = false →
      syncLoop dl wr now nowTs (b :: rest) fs = syncLoop dl wr now nowTs rest fs) ∧
    (∀ c d, endswith b.name ".lzf" = true →
      existsName fs.entries b.name = false → dl b.name = Except.ok c →
      wr b.name c = Except.ok () → get_date now b.createTime = some d →
      syncLoop dl wr now nowTs (b :: rest) fs =
        syncLoop dl wr now nowTs rest
          (setMtimeFS (writeFileFS fs b.name c nowTs) b.name (dtTimestamp d)) ∧
      existsName (writeFileFS fs b.name c nowTs).entries b.name = true) := by
  constructor
  · intro hlzf
    simp only [syncLoop, if_pos hlzf]
  · intro c d hlzf hex hdl hwr hd
    refine ⟨?_, existsName_writeEntries_self fs.entries b.name c nowTs⟩
    have hn1 : ¬ endswith b.name ".lzf" = false := by simp [hlzf]
    have hn2 : ¬ existsName fs.entries b.name = true := by simp [hex]
    simp only [syncLoop, if_neg hn1, if_neg hn2, hdl, hwr, hd]

theorem sync_extension_filter_witness :
    endswith "foo.zip" ".lzf" = false ∧
    syncLoop (fun _ => Except.ok [7]) (fun _ _ => Except.ok ())
        ⟨2024, 3, 15, 10, 0, 0, 0⟩ 0 [⟨"foo.zip", ⟨3, 1, 9, 0⟩⟩] ⟨true, []⟩ =
      syncLoop (fun _ => Except.ok [7]) (fun _ _ => Except.ok ())
        ⟨2024, 3, 15, 10, 0, 0, 0⟩ 0 [] ⟨true, []⟩ ∧
    (syncLoop (fun _ => Except.ok [7]) (fun _ _ => Except.ok ())
        ⟨2024, 3, 15, 10, 0, 0, 0⟩ 0 [⟨"foo.lzf", ⟨3, 1, 9, 0⟩⟩] ⟨true, []⟩ =
      syncLoop (fun _ => Except.ok [7]) (fun _ _ => Except.ok ())
        ⟨2024, 3, 15, 10, 0, 0, 0⟩ 0 []
        (setMtimeFS (writeFileFS ⟨true, []⟩ "foo.lzf" [7] 0) "foo.lzf"
          (dtTimestamp ⟨2024, 3, 1, 9, 0, 0, 0⟩)) ∧
      existsName (writeFileFS ⟨true, []⟩ "foo.lzf" [7] 0).entries "foo.lzf" = true) :=
  ⟨by decide,
    (sync_extension_filter (fun _ => Except.ok [7]) (fun _ _ => Except.ok ())
      ⟨2024, 3, 15, 10, 0, 0, 0⟩ 0 ⟨"foo.zip", ⟨3, 1, 9, 0⟩⟩ [] ⟨true, []⟩).1
      (by decide),
    (sync_extension_filter (fun _ => Except.ok [7]) (fun _ _ => Except.ok ())
      ⟨2024, 3, 15, 10, 0, 0, 0⟩ 0 ⟨"foo.lzf", ⟨3, 1, 9, 0⟩⟩ [] ⟨true, []⟩).2
      [7] ⟨2024, 3, 1, 9, 0, 0, 0⟩ (by decide) (by decide) rfl rfl (by decide)⟩

/-- C6: after a successful sync pass, a second pass over the same remote
backup list and the resulting directory — with any download oracle, any
write oracle, any wall clock and any hub address — downloads and writes
nothing and leaves the directory exactly as the first pass did. -/
theorem sync_idempotent (dl : String → Except String (List Nat))
    (wr : String → List Nat → Except String Unit) (now : DateTime)
    (nowTs : Int) (ip : String) (fs fs' : FS) (bs : List Backup)
    (h : download_available_backups dl wr now nowTs ip fs (Except.ok bs) =
      (fs', none)) :
    ∀ (dl' : String → Except String (List Nat))
      (wr' : String → List Nat → Except String Unit) (now' : DateTime)
      (nowTs' : Int) (ip' : String),
      download_available_backups dl' wr' now' nowTs' ip' fs' (Except.ok bs) =
        (fs', none) := by
  intro dl' wr' now' nowTs' ip'
  cases bs with
  | nil => simp [download_available_backups] at h
  | cons b0 rest =>
    have hloop : syncLoop dl wr now nowTs (b0 :: rest)
        { fs with destExists := true } = (fs', none) := by
      simpa [download_available_backups] using h
    have hdest : fs'.destExists = true := by
      have hd := syncLoop_destExists dl wr now nowTs (b0 :: rest)
        { fs with destExists := true }
      rw [hloop] at hd
      exact hd
    have hall := syncLoop_success_exists dl wr now nowTs (b0 :: rest) _ fs' hloop
    have hfs : ({ fs' with destExists := true } : FS) = fs' := by
      cases fs'
      simp only at hdest
      rw [hdest]
    have hne : ¬ ((b0 :: rest).isEmpty = true) := by simp
    simp only [download_available_backups]
    rw [if_neg hne, hfs]
    exact syncLoop_all_exist_noop dl' wr' now' nowTs' (b0 :: rest) fs' hall

theorem sync_idempotent_witness :
    download_available_backups (fun _ => Except.ok [1, 2])
        (fun _ _ => Except.ok ()) ⟨2024, 3, 15, 10, 0, 0, 0⟩ 0 "ip" ⟨false, []⟩
        (Except.ok [⟨"a.lzf", ⟨3, 1, 9, 0⟩⟩]) =
      (⟨true, [⟨"a.lzf", EntryKind.file, dtTimestamp ⟨2024, 3, 1, 9, 0, 0, 0⟩,
        [1, 2], false, false⟩]⟩, none) ∧
    download_available_backups (fun _ => Except.error "unreachable")
        (fun _ _ => Except.error "unreachable") ⟨2025, 1, 1, 0, 0, 0, 0⟩ 999 "other"
        ⟨true, [⟨"a.lzf", EntryKind.file, dtTimestamp ⟨2024, 3, 1, 9, 0, 0, 0⟩,
          [1, 2], false, false⟩]⟩
        (Except.ok [⟨"a.lzf", ⟨3, 1, 9, 0⟩⟩]) =
      (⟨true, [⟨"a.lzf", EntryKind.file, dtTimestamp ⟨2024, 3, 1, 9, 0, 0, 0⟩,
        [1, 2], false, false⟩]⟩, none) :=
  ⟨by decide,
    sync_idempotent (fun _ => Except.ok [1, 2]) (fun _ _ => Except.ok ())
      ⟨2024, 3, 15, 10, 0, 0, 0⟩ 0 "ip" ⟨false, []⟩
      ⟨true, [⟨"a.lzf", EntryKind.file, dtTimestamp ⟨2024, 3, 1, 9, 0, 0, 0⟩,
        [1, 2], false, false⟩]⟩
      [⟨"a.lzf", ⟨3, 1, 9, 0⟩⟩] (by decide)
      (fun _ => Except.error "unreachable") (fun _ _ => Except.error "unreachable")
      ⟨2025, 1, 1, 0, 0, 0, 0⟩ 999 "other"⟩

/-- C4: if the sync loop processes a prefix of the backup list without
error and then either the download of the next eligible backup fails or
the write of its downloaded bytes fails, the whole pass returns the
directory state reached after that prefix — the files already written
stay, with no rollback — with that error, and the backups after the
failing one contribute nothing, whatever they are. -/
theorem sync_no_rollback (dl : String → Except String (List Nat))
    (wr : String → List Nat → Except String Unit) (now : DateTime)
    (nowTs : Int) (ip : String) (fs fs1 : FS) (pre : List Backup) (b : Backup)
    (err : String)
    (hpre : syncLoop dl wr now nowTs pre { fs with destExists := true } =
      (fs1, none))
    (hlzf : endswith b.name ".lzf" = true)
    (hnex : existsName fs1.entries b.name = false)
    (hfail : dl b.name = Except.error err ∨
      ∃ c, dl b.name = Except.ok c ∧ wr b.name c = Except.error err) :
    ∀ post, download_available_backups dl wr now nowTs ip fs
      (Except.ok (pre ++ b :: post)) = (fs1, some err) := by
  intro post
  have hne : ¬ ((pre ++ b :: post).isEmpty = true) := by cases pre <;> simp
  simp only [download_available_backups]
  rw [if_neg hne,
    syncLoop_append dl wr now nowTs pre (b :: post) { fs with destExists := true }
      fs1 hpre]
  have hn1 : ¬ endswith b.name ".lzf" = false := by simp [hlzf]
  have hn2 : ¬ existsName fs1.entries b.name = true := by simp [hnex]
  rcases hfail with hdl | ⟨c, hdl, hwr⟩
  · simp only [syncLoop, if_neg hn1, if_neg hn2, hdl]
  · simp only [syncLoop, if_neg hn1, if_neg hn2, hdl, hwr]

theorem sync_no_rollback_witness :
    download_available_backups
        (fun n => if n = "a.lzf" then Except.ok [7] else Except.error "http 500")
        (fun _ _ => Except.ok ()) ⟨2024, 3, 15, 10, 0, 0, 0⟩ 0 "ip" ⟨false, []⟩
        (Except.ok ([⟨"a.lzf", ⟨3, 1, 9, 0⟩⟩] ++
          ⟨"b.lzf", ⟨3, 2, 9, 0⟩⟩ :: [⟨"c.lzf", ⟨3, 3, 9, 0⟩⟩])) =
      (⟨true, [⟨"a.lzf", EntryKind.file, dtTimestamp ⟨2024, 3, 1, 9, 0, 0, 0⟩,
        [7], false, false⟩]⟩, some "http 500") ∧
    download_available_backups (fun _ => Except.ok [7])
        (fun n _ => if n = "b.lzf" then Except.error "disk full" else Except.ok ())
        ⟨2024, 3, 15, 10, 0, 0, 0⟩ 0 "ip" ⟨false, []⟩
        (Except.ok ([⟨"a.lzf", ⟨3, 1, 9, 0⟩⟩] ++
          ⟨"b.lzf", ⟨3, 2, 9, 0⟩⟩ :: [⟨"c.lzf", ⟨3, 3, 9, 0⟩⟩])) =
      (⟨true, [⟨"a.lzf", EntryKind.file, dtTimestamp ⟨2024, 3, 1, 9, 0, 0, 0⟩,
        [7], false, false⟩]⟩, some "disk full") :=
  ⟨sync_no_rollback
      (fun n => if n = "a.lzf" then Except.ok [7] else Except.error "http 500")
      (fun _ _ => Except.ok ()) ⟨2024, 3, 15, 10, 0, 0, 0⟩ 0 "ip" ⟨false, []⟩
      ⟨true, [⟨"a.lzf", EntryKind.file, dtTimestamp ⟨2024, 3, 1, 9, 0, 0, 0⟩,
        [7], false, false⟩]⟩
      [⟨"a.lzf", ⟨3, 1, 9, 0⟩⟩] ⟨"b.lzf", ⟨3, 2, 9, 0⟩⟩ "http 500"
      (by decide) (by decide) (by decide) (Or.inl rfl)
      [⟨"c.lzf", ⟨3, 3, 9, 0⟩⟩],
    sync_no_rollback (fun _ => Except.ok [7])
      (fun n _ => if n = "b.lzf" then Except.error "disk full" else Except.ok ())
      ⟨2024, 3, 15, 10, 0, 0, 0⟩ 0 "ip" ⟨false, []⟩
      ⟨true, [⟨"a.lzf", EntryKind.file, dtTimestamp ⟨2024, 3, 1, 9, 0, 0, 0⟩,
        [7], false, false⟩]⟩
      [⟨"a.lzf", ⟨3, 1, 9, 0⟩⟩] ⟨"b.lzf", ⟨3, 2, 9, 0⟩⟩ "disk full"
      (by decide) (by decide) (by decide) (Or.inr ⟨[7], rfl, rfl⟩)
      [⟨"c.lzf", ⟨3, 3, 9, 0⟩⟩]⟩

/-- C2: with no syscall failures and a non-negative retention threshold,
`clean_old_backups` deletes exactly the direct entries that are regular
files (symbolic links excluded), carry the `.lzf` suffix, and whose
floored age in days is at least `maxAge`; every other entry survives in
place. -/
theorem clean_old_backups_spec (now maxAge : Int) (entries : List Entry)
    (hok : ∀ e ∈ entries, e.statFails = false ∧ e.unlinkFails = false)
    (_hma : 0 ≤ maxAge) :
    clean_old_backups now maxAge entries =
      (entries.filter (fun e => !pruneDeletes now maxAge e), none) := by
  induction entries with
  | nil => rfl
  | cons e rest ih =>
    obtain ⟨hs, hu⟩ := hok e (List.mem_cons_self _ _)
    have ih' := ih (fun x hx => hok x (List.mem_cons_of_mem _ hx))
    have hn3 : ¬ e.statFails = true := by simp [hs]
    have hn5 : ¬ e.unlinkFails = true := by simp [hu]
    by_cases h1 : isFile e = false
    · have hpd : pruneDeletes now maxAge e = false := by simp [pruneDeletes, h1]
      simp only [clean_old_backups, if_pos h1, ih', List.filter_cons, hpd]
      simp
    · have hIF : isFile e = true := by
        revert h1
        cases isFile e <;> simp
      by_cases h2 : endswith e.name ".lzf" = false
      · have hpd : pruneDeletes now maxAge e = false := by simp [pruneDeletes, h2]
        simp only [clean_old_backups, if_neg h1, if_pos h2, ih', List.filter_cons, hpd]
        simp
      · have hES : endswith e.name ".lzf" = true := by
          revert h2
          cases endswith e.name ".lzf" <;> simp
        by_cases h4 : (now - e.mtime).fdiv 86400 < maxAge
        · have hpd : pruneDeletes now maxAge e = false := by simp [pruneDeletes, h4]
          simp only [clean_old_backups, if_neg h1, if_neg h2, if_neg hn3, if_pos h4,
            ih', List.filter_cons, hpd]
          simp
        · have hpd : pruneDeletes now maxAge e = true := by
            simp [pruneDeletes, hIF, hES, h4]
          simp only [clean_old_backups, if_neg h1, if_neg h2, if_neg hn3, if_neg h4,
            if_neg hn5, ih', List.filter_cons, hpd]
          simp

theorem clean_old_backups_spec_witness :
    (∀ e ∈ [(⟨"old.lzf", EntryKind.file, 0, [], false, false⟩ : Entry),
        ⟨"new.lzf", EntryKind.file, 86400, [], false, false⟩,
        ⟨"dir.lzf", EntryKind.directory, 0, [], false, false⟩,
        ⟨"note.txt", EntryKind.file, 0, [], false, false⟩],
      e.statFails = false ∧ e.unlinkFails = false) ∧
    (0 : Int) ≤ 90 ∧
    clean_old_backups 7776000 90
        [⟨"old.lzf", EntryKind.file, 0, [], false, false⟩,
          ⟨"new.lzf", EntryKind.file, 86400, [], false, false⟩,
          ⟨"dir.lzf", EntryKind.directory, 0, [], false, false⟩,
          ⟨"note.txt", EntryKind.file, 0, [], false, false⟩] =
      ([⟨"old.lzf", EntryKind.file, 0, [], false, false⟩,
          ⟨"new.lzf", EntryKind.file, 86400, [], false, false⟩,
          ⟨"dir.lzf", EntryKind.directory, 0, [], false, false⟩,
          ⟨"note.txt", EntryKind.file, 0, [], false, false⟩].filter
        (fun e => !pruneDeletes 7776000 90 e), none) :=
  ⟨by decide, by decide,
    clean_old_backups_spec 7776000 90
      [⟨"old.lzf", EntryKind.file, 0, [], false, false⟩,
        ⟨"new.lzf", EntryKind.file, 86400, [], false, false⟩,
        ⟨"dir.lzf", EntryKind.directory, 0, [], false, false⟩,
        ⟨"note.txt", EntryKind.file, 0, [], false, false⟩]
      (by decide) (by decide)⟩

/-- C8 counterexample: a failing `os.unlink` on one entry terminates the
scan of `clean_old_backups`: with two deletable `.lzf` files of age 100
days and a 90-day threshold, the first entry's unlink failure makes the
whole call return with an error, leaving the second entry — which the
deletion criterion selects — untouched and unattempted. -/
theorem prune_abort_cex :
    clean_old_backups 8640000 90
        [⟨"old1.lzf", EntryKind.file, 0, [], false, true⟩,
          ⟨"old2.lzf", EntryKind.file, 0, [], false, false⟩] =
      ([⟨"old1.lzf", EntryKind.file, 0, [], false, true⟩,
          ⟨"old2.lzf", EntryKind.file, 0, [], false, false⟩],
        some unlinkFailMsg) ∧
    pruneDeletes 8640000 90 ⟨"old2.lzf", EntryKind.file, 0, [], false, false⟩ =
      true := by
  exact ⟨by decide, by decide⟩

/-- C8 (amended): a per-entry I/O failure in `clean_old_backups` is not
contained: once the scan reaches an entry whose `os.stat` fails, the
exception propagates, the entries already deleted stay deleted, and the
failing entry together with every later entry is left unexamined,
whatever it holds. -/
theorem prune_error_aborts_scan (now2 maxAge : Int) (pre pre' : List Entry)
    (f : Entry) (post : List Entry)
    (hpre : clean_old_backups now2 maxAge pre = (pre', none))
    (hf : isFile f = true) (hlzf : endswith f.name ".lzf" = true)
    (hstat : f.statFails = true) :
    clean_old_backups now2 maxAge (pre ++ f :: post) =
      (pre' ++ f :: post, some statFailMsg) := by
  rw [clean_old_backups_append now2 maxAge pre (f :: post) pre' hpre]
  have hn1 : ¬ isFile f = false := by simp [hf]
  have hn2 : ¬ endswith f.name ".lzf" = false := by simp [hlzf]
  simp only [clean_old_backups, if_neg hn1, if_neg hn2, if_pos hstat]

theorem prune_error_aborts_scan_witness :
    clean_old_backups 8640000 90 ([] : List Entry) = ([], none) ∧
    clean_old_backups 8640000 90
        ([] ++ ⟨"bad.lzf", EntryKind.file, 0, [], true, false⟩ ::
          [⟨"old.lzf", EntryKind.file, 0, [], false, false⟩]) =
      ([] ++ ⟨"bad.lzf", EntryKind.file, 0, [], true, false⟩ ::
          [⟨"old.lzf", EntryKind.file, 0, [], false, false⟩],
        some statFailMsg) :=
  ⟨rfl,
    prune_error_aborts_scan 8640000 90 [] []
      ⟨"bad.lzf", EntryKind.file, 0, [], true, false⟩
      [⟨"old.lzf", EntryKind.file, 0, [], false, false⟩]
      rfl (by decide) (by decide) (by decide)⟩
